/-
Verification of the pikapp-photos album pipeline.

Shallow embedding of:
  * `upload.sh`    — `to_snake_case`, `process_album`, `generate_albums_manifest`
  * `reset-album.sh` — `reset_album`
  * the gallery client scripts — `loadAlbums` (album-list script embedded in
    NSS-STYLEGUIDE.md) and `loadPhotos` (public/js/album-view.js)

File contents are abstracted as strings of bytes; the external thumbnail
generator (ffmpeg) is an opaque function parameter; interactive prompts
(album name, photographer, confirmations) are parameters of the modelled
functions, standing for the operator's answers on the confirmed path.
-/
import Mathlib

namespace PikappPhotos

/-! ### String helpers from upload.sh -/

/-- Bash `${photo##*.}` applied to the characters of a filename: the suffix
after the last `.`, or `none` when the name has no dot (in which case bash
returns the whole string). Scans left to right, preferring a dot found
further right. -/
def lastExtAux : List Char → Option (List Char)
  | [] => none
  | c :: cs =>
    match lastExtAux cs with
    | some e => some e
    | none => if c = '.' then some cs else none

/-- Bash `${photo##*.}`: the extension after the last dot, or the whole
string when there is no dot. -/
def lastExt (s : String) : String :=
  match lastExtAux s.toList with
  | some e => String.mk e
  | none => s

/-- `tr '[:upper:]' '[:lower:]'` (C locale, ASCII) on a character stream. -/
def trLowercase (cs : List Char) : List Char := cs.map Char.toLower

/-- `tr ' ' '_'`: each literal space character becomes an underscore; no
other character is touched. -/
def trSpaceToUnderscore (cs : List Char) : List Char :=
  cs.map (fun c => if c = ' ' then '_' else c)

/-- `tr -cd '[:alnum:]_'`: delete every character that is not ASCII
alphanumeric or underscore. -/
def trKeepAlnumUnderscore (cs : List Char) : List Char :=
  cs.filter (fun c => c.isAlphanum || c = '_')

/-- upload.sh `to_snake_case`: the pipeline
`tr '[:upper:]' '[:lower:]' | tr ' ' '_' | tr -cd '[:alnum:]_'`. -/
def to_snake_case (s : String) : String :=
  String.mk (trKeepAlnumUnderscore (trSpaceToUnderscore (trLowercase s.toList)))

/-- `extension_lower` in `process_album`: the extension after the last dot,
lowercased. -/
def extLower (name : String) : String :=
  String.mk (trLowercase (lastExt name).toList)

/-- When `pat` is an initial segment of the list, return the remainder;
otherwise `none`. -/
def matchHead : List Char → List Char → Option (List Char)
  | [], rest => some rest
  | _ :: _, [] => none
  | p :: ps, c :: cs => if c = p then matchHead ps cs else none

/-- Suffix test on character lists: `s` ends with `pat`. -/
def strEndsWith (s pat : String) : Bool :=
  (matchHead pat.toList.reverse s.toList.reverse).isSome

/-- The `find … -iname "*.jpg" -o -iname "*.jpeg" -o -iname "*.png"` filter
of `process_album`: the glob `*.ext` matched case-insensitively, i.e. the
lowercased filename ends with the lowercased extension. -/
def isPhotoFile (name : String) : Bool :=
  let l := String.mk (trLowercase name.toList)
  strEndsWith l ".jpg" || strEndsWith l ".jpeg" || strEndsWith l ".png"

example : isPhotoFile "IMG_1.JPG" = true := by decide
example : isPhotoFile "b.png" = true := by decide
example : isPhotoFile "notes.txt" = false := by decide
example : isPhotoFile "photo.Jpeg" = true := by decide

/-! ### Spec-side folder-name normalization (for comparison with
`to_snake_case`) -/

/-- Collapse each maximal run of whitespace into a single underscore.
The boolean flag records whether the previous character was whitespace. -/
def collapseWs : List Char → Bool → List Char
  | [], _ => []
  | c :: cs, prevWs =>
    if c.isWhitespace then
      if prevWs then collapseWs cs true else '_' :: collapseWs cs true
    else c :: collapseWs cs false

/-- Folder-name normalization as the spec words it: lowercasing, collapsing
whitespace to underscore, then stripping every character that is not
alphanumeric or underscore. Stated only to be compared with the
implementation `to_snake_case`. -/
def specFolderName (s : String) : String :=
  String.mk (trKeepAlnumUnderscore (collapseWs (trLowercase s.toList) false))

/-- Folder-name normalization as the code actually behaves, written as a
single pass: lowercase each character, turn a literal space (only) into an
underscore, and keep the character only when it is alphanumeric or an
underscore. -/
def amendedFolderName (s : String) : String :=
  String.mk (s.toList.foldr
    (fun c acc =>
      let c1 := Char.toLower c
      let c2 := if c1 = ' ' then '_' else c1
      if c2.isAlphanum || c2 = '_' then c2 :: acc else acc)
    [])

example : to_snake_case "Spring Formal 2024!" = "spring_formal_2024" := by decide
example : to_snake_case "a\tb" = "ab" := by decide
example : specFolderName "a\tb" = "a_b" := by decide

/-! ### Data model: album directories and metadata -/

/-- Opaque file bytes. -/
abbrev Content := String

/-- One file: its name and its bytes. -/
structure FsFile where
  name : String
  content : Content
deriving DecidableEq, Repr

/-- One entry of the `photos` array written by upload.sh:
`{"webp": …, "ext": …}`. -/
structure PhotoRec where
  webp : String
  ext : String
deriving DecidableEq, Repr

/-- The album metadata file `data.json` written by `process_album`. -/
structure AlbumMeta where
  name : String
  photographer : String
  date : String
  coverPhoto : String
  photos : List PhotoRec
deriving DecidableEq, Repr

/-- The state of one album directory: loose files in the root, the optional
`low/` and `full/` subdirectories, and the optional `data.json`. A raw album
has `low = full = none` and `dataJson = none`. -/
structure AlbumDir where
  root : List FsFile
  low : Option (List FsFile)
  full : Option (List FsFile)
  dataJson : Option AlbumMeta
deriving DecidableEq, Repr

/-! ### Indexing helper: 1-based enumeration of the photo list -/

/-- Pair each list element with its index, starting the count at `k`.
Models the `index=1; …; index=$((index + 1))` loop counter of
`process_album`. -/
def withIndexFrom (k : Nat) : List α → List (Nat × α)
  | [] => []
  | x :: xs => (k, x) :: withIndexFrom (k + 1) xs

theorem withIndexFrom_length (k : Nat) (xs : List α) :
    (withIndexFrom k xs).length = xs.length := by
  induction xs generalizing k with
  | nil => rfl
  | cons x xs ih => simp [withIndexFrom, ih]

theorem withIndexFrom_get (k : Nat) (xs : List α) (j : Nat) (h : j < xs.length) :
    (withIndexFrom k xs).get ⟨j, by rw [withIndexFrom_length]; exact h⟩ =
      (k + j, xs.get ⟨j, h⟩) := by
  induction xs generalizing k j with
  | nil => exact absurd h (Nat.not_lt_zero j)
  | cons x xs ih =>
    cases j with
    | zero => simp [withIndexFrom]
    | succ j =>
      have h' : j < xs.length := Nat.lt_of_succ_lt_succ h
      simp only [withIndexFrom, List.get]
      rw [ih (k + 1) j h']
      simp [Nat.add_comm, Nat.add_assoc, Nat.add_left_comm]

theorem withIndexFrom_map_snd (k : Nat) (xs : List α) :
    (withIndexFrom k xs).map Prod.snd = xs := by
  induction xs generalizing k with
  | nil => rfl
  | cons x xs ih => simp [withIndexFrom, ih]

/-! ### upload.sh: process_album -/

/-- The `photo_files` array of `process_album`: the files directly in the
album root whose extension case-insensitively matches jpg/jpeg/png, in
discovery order. -/
def photoFilesOf (files : List FsFile) : List FsFile :=
  files.filter (fun f => isPhotoFile f.name)

/-- `base_name="${snake_album_name}_${index}"`. -/
def mkBaseName (snake : String) (i : Nat) : String :=
  snake ++ "_" ++ toString i

/-- The photos-array record produced for the file at 1-based index `i`:
webp name `{base}.webp`, extension `extension_lower`. -/
def photoRecOf (snake : String) (i : Nat) (f : FsFile) : PhotoRec :=
  { webp := mkBaseName snake i ++ ".webp", ext := extLower f.name }

/-- The archival copy placed in `full/`:
`cp "$photo" "${album_path}full/${base_name}.${extension_lower}"` —
byte-exact copy of the original under the generated name. -/
def fullFileOf (snake : String) (i : Nat) (f : FsFile) : FsFile :=
  { name := mkBaseName snake i ++ "." ++ extLower f.name, content := f.content }

/-- The thumbnail placed in `low/`: ffmpeg output `{base}.webp`, bytes
produced by the opaque scaler `thumb`. -/
def lowFileOf (thumb : Content → Content) (snake : String) (i : Nat) (f : FsFile) :
    FsFile :=
  { name := mkBaseName snake i ++ ".webp", content := thumb f.content }

/-- The `photo_data` array built by the processing loop, one record per
source file at its 1-based loop index. -/
def publishPhotos (snake : String) (pf : List FsFile) : List PhotoRec :=
  (withIndexFrom 1 pf).map (fun p => photoRecOf snake p.1 p.2)

/-- The contents of `full/` after the loop: for each source file at index
`i`, its byte-exact copy under `{base}.{extension_lower}`. -/
def publishFulls (snake : String) (pf : List FsFile) : List FsFile :=
  (withIndexFrom 1 pf).map (fun p => fullFileOf snake p.1 p.2)

/-- The contents of `low/` after the loop: the ffmpeg thumbnail of each
source file under `{base}.webp`. -/
def publishLows (thumb : Content → Content) (snake : String)
    (pf : List FsFile) : List FsFile :=
  (withIndexFrom 1 pf).map (fun p => lowFileOf thumb snake p.1 p.2)

/-- `random_index=$((RANDOM % ${#photo_data[@]}))` and the webp half of the
selected `photo_data` entry. -/
def publishCover (snake : String) (pf : List FsFile) (r : Nat) : String :=
  ((publishPhotos snake pf).getD (r % (publishPhotos snake pf).length)
    ⟨"", ""⟩).webp

/-- The album directory state after the non-empty branch of
`process_album`: matched sources removed from the root, `full/` holding
the byte-exact originals under generated names, `low/` holding the
thumbnails, and `data.json` holding the metadata with the randomly chosen
cover photo. -/
def publishedDir (thumb : Content → Content)
    (album_name photographer date : String) (r : Nat)
    (files : List FsFile) : AlbumDir :=
  let snake := to_snake_case album_name
  let pf := photoFilesOf files
  { root := files.filter (fun f => !(isPhotoFile f.name)),
    low := some (publishLows thumb snake pf),
    full := some (publishFulls snake pf),
    dataJson := some
      { name := album_name, photographer := photographer, date := date,
        coverPhoto := publishCover snake pf r,
        photos := publishPhotos snake pf } }

/-- upload.sh `process_album`, modelled on one album directory.

Arguments: `thumb` is the external thumbnail generator (black box);
`album_name` and `photographer` are the operator's interactive answers;
`date` is the timestamp; `r` is the value of `$RANDOM` used for the cover
photo; `files` are the files sitting loose in the album root.

Returns `none` when no photo files are found (the script prints a warning
and returns without touching anything — the directory-creating and
file-moving steps all come after this early return). Otherwise returns the
new directory basename (`snake_album_name`, to which the directory is
renamed) together with the resulting directory state. -/
def process_album (thumb : Content → Content)
    (album_name photographer date : String) (r : Nat)
    (files : List FsFile) : Option (String × AlbumDir) :=
  if (photoFilesOf files).length = 0 then
    none
  else
    some (to_snake_case album_name,
      publishedDir thumb album_name photographer date r files)

/-! ### upload.sh: generate_albums_manifest -/

/-- The site state the manifest generator sees: the album directories under
`public/albums` (basename paired with directory state) and the manifest
file `public/albums.json`. The manifest file lives outside the albums
directory, so writing it does not change what a scan sees. -/
structure SiteState where
  albums : List (String × AlbumDir)
  albumsJson : Option (List String)
deriving DecidableEq, Repr

/-- The scan of `generate_albums_manifest`: the basenames of exactly those
album directories in which `data.json` is present. -/
def generate_albums_manifest (albums : List (String × AlbumDir)) : List String :=
  (albums.filter (fun p => p.2.dataJson.isSome)).map (fun p => p.1)

/-- Running `generate_albums_manifest` on the site: rescan the albums
directory and overwrite `public/albums.json` with the result. -/
def runGenerateManifest (s : SiteState) : SiteState :=
  { s with albumsJson := some (generate_albums_manifest s.albums) }

/-! ### upload.sh: the data.json write (`cat > data.json <<EOF`) -/

/-- Observable contents of `data.json` over the course of
`cat > "${album_path}data.json" <<EOF …`: the shell opens the target with
`O_TRUNC` before `cat` writes a single byte, so a reader can observe, in
order, the previous contents (`none` when the file did not exist), the
truncated empty file, and finally the complete new contents. -/
def writeRedirectTrace (old : Option Content) (newContent : Content) :
    List (Option Content) :=
  [old, some "", some newContent]

/-- A write is atomic from the caller's perspective when every observable
state during it is either the previous file (or its absence) or the
complete new file. -/
def AtomicWrite (trace : List (Option Content)) (old : Option Content)
    (newContent : Content) : Prop :=
  ∀ s ∈ trace, s = old ∨ s = some newContent

/-! ### reset-album.sh: reset_album -/

/-- Outcome of `reset_album`. `alreadyReset` is the `exit 0` path when no
`data.json` exists; `missingFull` is the `exit 1` path when `full/` is
absent; `emptyFullError` is the abort (under `set -e`) when
`mv "${album_path}/full"/*` finds no file to move; `reset` carries the new
directory state and the photo count the script reports (computed by
`find "${album_path}/full" -type f | wc -l` before the move). -/
inductive ResetResult
  | alreadyReset
  | missingFull
  | emptyFullError
  | reset (dir : AlbumDir) (photoCount : Nat)
deriving DecidableEq, Repr

/-- reset-album.sh `reset_album` on one album directory, modelling the
operator-confirmed path. Checks `data.json` first (already reset), then
`full/` (corruption guard), counts the files in `full/`, moves them into
the album root, and deletes `low/`, `full/` and `data.json`. The metadata
contents are never read. -/
def reset_album (dir : AlbumDir) : ResetResult :=
  match dir.dataJson with
  | none => .alreadyReset
  | some _ =>
    match dir.full with
    | none => .missingFull
    | some fulls =>
      if fulls.isEmpty then
        .emptyFullError
      else
        .reset
          { root := dir.root ++ fulls, low := none, full := none,
            dataJson := none }
          fulls.length

/-! ### Gallery client: album list (script embedded in NSS-STYLEGUIDE.md) -/

/-- Result of one `fetch` + JSON parse as the client code distinguishes
them: `notFound` is a non-ok HTTP response, `invalidJson` an ok response
whose body fails `response.json()`, `ok` a parsed value. -/
inductive FetchResult (α : Type)
  | notFound
  | invalidJson
  | ok (a : α)
deriving DecidableEq, Repr

/-- One album as the listing page holds it after a successful metadata
fetch: the parsed `data.json` fields it sorts and renders by, with the
`Date` parse of the `date` string abstracted to a numeric timestamp, plus
the `folderName` the loader attaches. -/
structure ClientAlbum where
  name : String
  date : Nat
  folderName : String
deriving DecidableEq, Repr

/-- The parsed body of one per-album metadata fetch (before `folderName`
is attached). -/
structure ClientAlbumData where
  name : String
  date : Nat
deriving DecidableEq, Repr

/-- `loadAlbums` of the album-list script: fetch `albums.json`; a non-ok
response or an unparsable body throws (the caller `initAlbumList` catches
and shows a page-level error, modelled as `Except.error`). For each listed
album, fetch its metadata; a non-ok response or a parse failure yields
`null`, filtered out afterwards. The survivors get their `folderName`
attached and are sorted by date, newest first
(`sort((a, b) => new Date(b.date) - new Date(a.date))`, a stable sort).
`loadOne` is the body of the per-album `albumPromises` map: `null` (here
`none`) on a non-ok response or a parse failure, otherwise the parsed data
with `folderName` attached. -/
def loadOne (fetchAlbum : String → FetchResult ClientAlbumData) (n : String) :
    Option ClientAlbum :=
  match fetchAlbum n with
  | .ok a => some { name := a.name, date := a.date, folderName := n }
  | _ => none

/-- See `loadOne`: the whole of `loadAlbums`, returning either the thrown
error or the filtered, sorted album list. -/
def loadAlbums (manifest : FetchResult (List String))
    (fetchAlbum : String → FetchResult ClientAlbumData) :
    Except String (List ClientAlbum) :=
  match manifest with
  | .notFound => .error "HTTP error"
  | .invalidJson => .error "invalid JSON"
  | .ok names =>
    .ok ((names.filterMap (loadOne fetchAlbum)).mergeSort
      (fun a b => decide (b.date ≤ a.date)))

/-! ### Gallery client: album view (public/js/album-view.js) -/

/-- Replace the first occurrence of `pat` (as character list) by `repl`,
or return `none` when `pat` does not occur. -/
def replaceFirstAux (pat repl : List Char) : List Char → Option (List Char)
  | [] => if pat.isEmpty then some repl else none
  | c :: cs =>
    match matchHead pat (c :: cs) with
    | some rest => some (repl ++ rest)
    | none => (replaceFirstAux pat repl cs).map (fun r => c :: r)

/-- JavaScript `s.replace(pat, repl)` with string arguments: replace the
first occurrence only; leave the string unchanged when the pattern does not
occur. -/
def jsReplaceFirst (s pat repl : String) : String :=
  match replaceFirstAux pat.toList repl.toList s.toList with
  | some r => String.mk r
  | none => s

/-- One entry of a fetched `photos` array as `loadPhotos` distinguishes
them: a legacy bare filename string, or a structured
`{webp: …, ext: …}` object. -/
inductive PhotoEntry
  | legacy (filename : String)
  | structured (webp ext : String)
deriving DecidableEq, Repr

/-- The record `loadPhotos` builds for each photo: thumbnail URL, lightbox
URL and download (original) URL. -/
structure PhotoUrls where
  thumbnail : String
  lightbox : String
  original : String
deriving DecidableEq, Repr

/-- The legacy branch of the `loadPhotos` map: all three URLs are derived
from the one bare string `p`. -/
def legacyUrls (albumFolder p : String) : PhotoUrls :=
  { thumbnail := "albums/" ++ albumFolder ++ "/low/" ++ p,
    lightbox := "albums/" ++ albumFolder ++ "/low/" ++ p,
    original := "albums/" ++ albumFolder ++ "/full/" ++ p }

/-- The per-entry map of `loadPhotos` in album-view.js. The structured
branch is guarded by the JavaScript truthiness test
`typeof photo === 'object' && photo.webp`, so an object with an empty
`webp` falls into the else branch, where the template literal coerces the
object to the string `"[object Object]"`. In the structured branch,
`baseName = photo.webp.replace('.webp', '')` (first occurrence only) and
the download URL is `full/{baseName}.{ext}`. -/
def loadPhoto (albumFolder : String) : PhotoEntry → PhotoUrls
  | .legacy p => legacyUrls albumFolder p
  | .structured w e =>
    if w = "" then
      legacyUrls albumFolder "[object Object]"
    else
      { thumbnail := "albums/" ++ albumFolder ++ "/low/" ++ w,
        lightbox := "albums/" ++ albumFolder ++ "/low/" ++ w,
        original := "albums/" ++ albumFolder ++ "/full/" ++
          jsReplaceFirst w ".webp" "" ++ "." ++ e }

example : jsReplaceFirst "spring_formal_2024_1.webp" ".webp" "" =
    "spring_formal_2024_1" := by decide
example : jsReplaceFirst "a.webp.webp" ".webp" "" = "a.webp" := by decide

/-! ### Helper lemmas -/

theorem snake_pipeline_foldr (cs : List Char) :
    trKeepAlnumUnderscore (trSpaceToUnderscore (trLowercase cs)) =
      cs.foldr
        (fun c acc =>
          let c1 := Char.toLower c
          let c2 := if c1 = ' ' then '_' else c1
          if c2.isAlphanum || c2 = '_' then c2 :: acc else acc)
        [] := by
  induction cs with
  | nil => rfl
  | cons c cs ih =>
    simp only [trLowercase, trSpaceToUnderscore, trKeepAlnumUnderscore,
      List.map_cons, List.filter_cons, List.foldr_cons] at ih ⊢
    rw [ih]

theorem to_snake_case_eq_amended (s : String) :
    to_snake_case s = amendedFolderName s := by
  unfold to_snake_case amendedFolderName
  rw [snake_pipeline_foldr]

theorem publishPhotos_length (snake : String) (pf : List FsFile) :
    (publishPhotos snake pf).length = pf.length := by
  simp [publishPhotos, withIndexFrom_length]

theorem publishFulls_length (snake : String) (pf : List FsFile) :
    (publishFulls snake pf).length = pf.length := by
  simp [publishFulls, withIndexFrom_length]

theorem publishLows_length (thumb : Content → Content) (snake : String)
    (pf : List FsFile) :
    (publishLows thumb snake pf).length = pf.length := by
  simp [publishLows, withIndexFrom_length]

theorem publishPhotos_get (snake : String) (pf : List FsFile) (j : Nat)
    (hj : j < pf.length) :
    (publishPhotos snake pf).get
        ⟨j, by rw [publishPhotos_length]; exact hj⟩ =
      photoRecOf snake (1 + j) (pf.get ⟨j, hj⟩) := by
  unfold publishPhotos
  rw [List.get_map, withIndexFrom_get]

theorem publishFulls_get (snake : String) (pf : List FsFile) (j : Nat)
    (hj : j < pf.length) :
    (publishFulls snake pf).get
        ⟨j, by rw [publishFulls_length]; exact hj⟩ =
      fullFileOf snake (1 + j) (pf.get ⟨j, hj⟩) := by
  unfold publishFulls
  rw [List.get_map, withIndexFrom_get]

theorem publishFulls_map_content (snake : String) (pf : List FsFile) :
    (publishFulls snake pf).map FsFile.content = pf.map FsFile.content := by
  unfold publishFulls
  rw [List.map_map]
  rw [show (FsFile.content ∘ fun p : Nat × FsFile => fullFileOf snake p.1 p.2) =
        (FsFile.content ∘ Prod.snd) from rfl]
  rw [← List.map_map, withIndexFrom_map_snd]

theorem publishCover_mem (snake : String) (pf : List FsFile) (r : Nat)
    (h : pf ≠ []) :
    publishCover snake pf r ∈ (publishPhotos snake pf).map PhotoRec.webp := by
  have hlen : 0 < (publishPhotos snake pf).length := by
    rw [publishPhotos_length]
    exact List.length_pos.mpr h
  unfold publishCover
  rw [List.getD_eq_get _ _ (Nat.mod_lt _ hlen)]
  exact List.mem_map_of_mem _ (List.get_mem _ _ _)

theorem filter_not_filter (p : α → Bool) (l : List α) :
    (l.filter (fun a => !p a)).filter p = [] := by
  rw [List.filter_filter]
  simp

theorem process_album_eq (thumb : Content → Content)
    (an ph dt : String) (r : Nat) (files : List FsFile)
    (h : photoFilesOf files ≠ []) :
    process_album thumb an ph dt r files =
      some (to_snake_case an, publishedDir thumb an ph dt r files) := by
  have hlen : ¬ (photoFilesOf files).length = 0 := by
    simpa [List.length_eq_zero] using h
  simp [process_album, hlen]

/-! ### Claim C5 -/

/-- C5 counterexample: on the input `"a\tb"` (a tab between two letters)
the implementation `to_snake_case` deletes the tab — only literal spaces
become underscores — while the spec's normalization (collapse whitespace to
underscore) yields an underscore, so the two derivations disagree. -/
theorem snake_case_spec_counterexample :
    to_snake_case "a\tb" = "ab" ∧ specFolderName "a\tb" = "a_b" ∧
    to_snake_case "a\tb" ≠ specFolderName "a\tb" := by decide

/-- C5 (amended): for every displayName, the derived folderName equals the
result of lowercasing, replacing each literal space (only — other
whitespace is not mapped, and runs are not collapsed) by an underscore,
then stripping every character that is not alphanumeric or underscore; in
particular "Spring Formal 2024!" yields "spring_formal_2024". -/
theorem snake_case_characterization :
    (∀ s, to_snake_case s = amendedFolderName s) ∧
    to_snake_case "Spring Formal 2024!" = "spring_formal_2024" :=
  ⟨to_snake_case_eq_amended, by decide⟩

/-! ### Claim C7 -/

/-- C7: regenerating the global manifest is idempotent — with no
intervening filesystem change a second run writes the identical manifest —
and the manifest written contains exactly the basenames of the album
directories in which data.json is present. -/
theorem generate_manifest_idempotent_and_exact (s : SiteState) (n : String) :
    runGenerateManifest (runGenerateManifest s) = runGenerateManifest s ∧
    (n ∈ generate_albums_manifest s.albums ↔
      ∃ d, (n, d) ∈ s.albums ∧ d.dataJson.isSome) := by
  refine ⟨rfl, ?_⟩
  simp only [generate_albums_manifest, List.mem_map, List.mem_filter]
  constructor
  · rintro ⟨⟨a, d⟩, ⟨hmem, hd⟩, rfl⟩
    exact ⟨d, hmem, hd⟩
  · rintro ⟨d, hmem, hd⟩
    exact ⟨⟨n, d⟩, ⟨hmem, hd⟩, rfl⟩

/-! ### Claim C3 -/

/-- C3 counterexample: writing data.json through `cat > … <<EOF` truncates
the target in place, so the empty file is an observable intermediate state
that is neither the previous contents nor the complete new contents — the
write is not atomic from a concurrent reader's perspective. -/
theorem metadata_write_not_atomic_counterexample :
    ¬ AtomicWrite (writeRedirectTrace (some "old metadata") "new metadata")
        (some "old metadata") "new metadata" := by
  intro h
  rcases h (some "") (by simp [writeRedirectTrace]) with h' | h'
  · exact absurd (Option.some.inj h') (by decide)
  · exact absurd (Option.some.inj h') (by decide)

/-- C3 (amended): the metadata write is not atomic: it truncates data.json
in place before writing, so whenever the new contents are nonempty and the
previous state was not an empty file, a reader can observe a state that is
neither the previous file (or its absence) nor the complete new file. -/
theorem metadata_write_exposes_truncation (old : Option Content) (nc : Content)
    (hnc : nc ≠ "") (hold : old ≠ some "") :
    ¬ AtomicWrite (writeRedirectTrace old nc) old nc := by
  intro h
  rcases h (some "") (by simp [writeRedirectTrace]) with h' | h'
  · exact hold h'.symm
  · exact hnc (Option.some.inj h').symm

/-- Witness for `metadata_write_exposes_truncation` at concrete contents
(a file being overwritten with fresh metadata). -/
theorem metadata_write_exposes_truncation_witness :
    ¬ AtomicWrite (writeRedirectTrace none "fresh metadata") none
        "fresh metadata" :=
  metadata_write_exposes_truncation none "fresh metadata" (by decide)
    (by decide)

/-! ### Claim C9 -/

/-- C9: publish on an album directory with zero files whose extension
case-insensitively matches jpg/jpeg/png returns without any state change:
the early return precedes every mkdir, copy, removal, metadata write and
rename, so no output state is produced at all. -/
theorem publish_empty_album_no_state_change (thumb : Content → Content)
    (an ph dt : String) (r : Nat) (files : List FsFile)
    (h : photoFilesOf files = []) :
    process_album thumb an ph dt r files = none := by
  simp [process_album, h]

/-- Witness for `publish_empty_album_no_state_change`: a directory holding
only a text file. -/
theorem publish_empty_album_witness :
    photoFilesOf [⟨"notes.txt", "bytes"⟩] = [] ∧
    process_album (fun c => c) "Spring Formal 2024!" "Ansel"
      "2024-05-01T00:00:00Z" 3 [⟨"notes.txt", "bytes"⟩] = none :=
  ⟨by decide,
   publish_empty_album_no_state_change (fun c => c) "Spring Formal 2024!"
     "Ansel" "2024-05-01T00:00:00Z" 3 [⟨"notes.txt", "bytes"⟩] (by decide)⟩

/-! ### Claim C10 -/

/-- C10: reset moves back into the album root exactly the files found in
full/ at invocation time and reports their count; the metadata's photos
list is never consulted — the hypotheses place no constraint whatsoever on
the metadata `m`, and the result does not mention it. -/
theorem reset_moves_full_contents (dir : AlbumDir) (m : AlbumMeta)
    (fulls : List FsFile) (h1 : dir.dataJson = some m)
    (h2 : dir.full = some fulls) (h3 : fulls ≠ []) :
    reset_album dir =
      .reset { root := dir.root ++ fulls, low := none, full := none,
               dataJson := none } fulls.length := by
  unfold reset_album
  rw [h1, h2]
  simp [h3]

def exMetaOnePhoto : AlbumMeta :=
  { name := "a", photographer := "p", date := "2024-01-01T00:00:00Z",
    coverPhoto := "a_1.webp", photos := [⟨"a_1.webp", "jpg"⟩] }

def exDirTwoFulls : AlbumDir :=
  { root := [], low := some [],
    full := some [⟨"a_1.jpg", "x"⟩, ⟨"a_2.jpg", "y"⟩],
    dataJson := some exMetaOnePhoto }

/-- Witness for `reset_moves_full_contents`: the metadata lists one photo
while full/ holds two files; reset still moves and reports two. -/
theorem reset_moves_full_contents_witness :
    exMetaOnePhoto.photos.length = 1 ∧
    reset_album exDirTwoFulls =
      .reset { root := [⟨"a_1.jpg", "x"⟩, ⟨"a_2.jpg", "y"⟩], low := none,
               full := none, dataJson := none } 2 :=
  ⟨rfl,
   reset_moves_full_contents exDirTwoFulls exMetaOnePhoto
     [⟨"a_1.jpg", "x"⟩, ⟨"a_2.jpg", "y"⟩] rfl rfl (by decide)⟩

/-! ### Claim C1 -/

/-- C1: publishing a raw album with N ≥ 1 matching source files produces a
state in which low/ and full/ each contain exactly N files, the metadata
lists exactly N photo records whose webp names are
`{folderName}_{i}.webp` for contiguous 1-based `i` in discovery order, the
cover photo is the webp name of one of those records, and the album root
retains zero source files. -/
theorem publish_postcondition (thumb : Content → Content)
    (an ph dt : String) (r : Nat) (files : List FsFile)
    (h : photoFilesOf files ≠ []) :
    ∃ dir lows fulls meta,
      process_album thumb an ph dt r files = some (to_snake_case an, dir) ∧
      dir.low = some lows ∧ dir.full = some fulls ∧
      dir.dataJson = some meta ∧
      lows.length = (photoFilesOf files).length ∧
      fulls.length = (photoFilesOf files).length ∧
      meta.photos.length = (photoFilesOf files).length ∧
      (∀ j, j < meta.photos.length →
        (meta.photos.getD j ⟨"", ""⟩).webp =
          mkBaseName (to_snake_case an) (j + 1) ++ ".webp") ∧
      meta.coverPhoto ∈ meta.photos.map PhotoRec.webp ∧
      dir.root.filter (fun f => isPhotoFile f.name) = [] := by
  refine ⟨publishedDir thumb an ph dt r files,
    publishLows thumb (to_snake_case an) (photoFilesOf files),
    publishFulls (to_snake_case an) (photoFilesOf files),
    { name := an, photographer := ph, date := dt,
      coverPhoto := publishCover (to_snake_case an) (photoFilesOf files) r,
      photos := publishPhotos (to_snake_case an) (photoFilesOf files) },
    process_album_eq thumb an ph dt r files h, rfl, rfl, rfl,
    publishLows_length _ _ _, publishFulls_length _ _,
    publishPhotos_length _ _, ?_, publishCover_mem _ _ _ h,
    filter_not_filter _ _⟩
  intro j hj
  have hj' : j < (photoFilesOf files).length := by
    rwa [publishPhotos_length] at hj
  rw [List.getD_eq_get _ _ hj, publishPhotos_get _ _ j hj']
  simp [photoRecOf, Nat.add_comm]

def exFiles : List FsFile :=
  [⟨"IMG_1.JPG", "aa"⟩, ⟨"b.png", "bb"⟩, ⟨"notes.txt", "cc"⟩]

/-- Witness for `publish_postcondition` on a concrete album with two photo
files (one uppercase JPG, one png) and one non-photo file. -/
theorem publish_postcondition_witness :
    photoFilesOf exFiles ≠ [] ∧
    (∃ dir lows fulls meta,
      process_album (fun c => "t:" ++ c) "Spring Formal 2024!" "Ansel"
          "2024-05-01T00:00:00Z" 5 exFiles =
        some (to_snake_case "Spring Formal 2024!", dir) ∧
      dir.low = some lows ∧ dir.full = some fulls ∧
      dir.dataJson = some meta ∧
      lows.length = (photoFilesOf exFiles).length ∧
      fulls.length = (photoFilesOf exFiles).length ∧
      meta.photos.length = (photoFilesOf exFiles).length ∧
      (∀ j, j < meta.photos.length →
        (meta.photos.getD j ⟨"", ""⟩).webp =
          mkBaseName (to_snake_case "Spring Formal 2024!") (j + 1) ++
            ".webp") ∧
      meta.coverPhoto ∈ meta.photos.map PhotoRec.webp ∧
      dir.root.filter (fun f => isPhotoFile f.name) = []) :=
  ⟨by decide,
   publish_postcondition (fun c => "t:" ++ c) "Spring Formal 2024!" "Ansel"
     "2024-05-01T00:00:00Z" 5 exFiles (by decide)⟩

/-! ### Claim C2 -/

/-- C2: running reset after publish restores into the album root exactly N
files whose byte contents equal, in order, the N original source files —
publish copies the originals byte-exactly into full/ and reset moves them
back — but under the generated `{baseName}.{originalExtension}` names
rather than the original filenames. -/
theorem reset_after_publish (thumb : Content → Content)
    (an ph dt : String) (r : Nat) (files : List FsFile)
    (h : photoFilesOf files ≠ []) :
    ∃ dir restored,
      process_album thumb an ph dt r files = some (to_snake_case an, dir) ∧
      reset_album dir =
        .reset
          { root := files.filter (fun f => !(isPhotoFile f.name)) ++ restored,
            low := none, full := none, dataJson := none }
          restored.length ∧
      restored.length = (photoFilesOf files).length ∧
      restored.map FsFile.content = (photoFilesOf files).map FsFile.content ∧
      (∀ j, j < restored.length →
        (restored.getD j ⟨"", ""⟩).name =
          mkBaseName (to_snake_case an) (j + 1) ++ "." ++
            extLower ((photoFilesOf files).getD j ⟨"", ""⟩).name) := by
  have hful : publishFulls (to_snake_case an) (photoFilesOf files) ≠ [] := by
    rw [← List.length_pos, publishFulls_length]
    exact List.length_pos.mpr h
  refine ⟨publishedDir thumb an ph dt r files,
    publishFulls (to_snake_case an) (photoFilesOf files),
    process_album_eq thumb an ph dt r files h, ?_,
    publishFulls_length _ _, publishFulls_map_content _ _, ?_⟩
  · unfold reset_album publishedDir
    simp [hful]
  · intro j hj
    have hj' : j < (photoFilesOf files).length := by
      rwa [publishFulls_length] at hj
    rw [List.getD_eq_get _ _ hj, List.getD_eq_get _ _ hj',
      publishFulls_get _ _ j hj']
    simp [fullFileOf, Nat.add_comm]

/-- Witness for `reset_after_publish` on the same concrete album. -/
theorem reset_after_publish_witness :
    photoFilesOf exFiles ≠ [] ∧
    (∃ dir restored,
      process_album (fun c => "t:" ++ c) "Spring Formal 2024!" "Ansel"
          "2024-05-01T00:00:00Z" 5 exFiles =
        some (to_snake_case "Spring Formal 2024!", dir) ∧
      reset_album dir =
        .reset
          { root := exFiles.filter (fun f => !(isPhotoFile f.name)) ++ restored,
            low := none, full := none, dataJson := none }
          restored.length ∧
      restored.length = (photoFilesOf exFiles).length ∧
      restored.map FsFile.content = (photoFilesOf exFiles).map FsFile.content ∧
      (∀ j, j < restored.length →
        (restored.getD j ⟨"", ""⟩).name =
          mkBaseName (to_snake_case "Spring Formal 2024!") (j + 1) ++ "." ++
            extLower ((photoFilesOf exFiles).getD j ⟨"", ""⟩).name)) :=
  ⟨by decide,
   reset_after_publish (fun c => "t:" ++ c) "Spring Formal 2024!" "Ansel"
     "2024-05-01T00:00:00Z" 5 exFiles (by decide)⟩

/-! ### Claim C4 -/

def noAlbumsFetch : String → FetchResult ClientAlbumData := fun _ => .notFound

/-- C4 counterexample: when the fetch of albums.json fails (non-ok
response), `loadAlbums` throws — the caller shows a page-level error — and
does not return an empty album list. -/
theorem manifest_absent_counterexample :
    loadAlbums .notFound noAlbumsFetch = .error "HTTP error" ∧
    loadAlbums .notFound noAlbumsFetch ≠ .ok [] :=
  ⟨rfl, fun h => Except.noConfusion h⟩

/-- C4 (amended): when the global manifest is absent, `loadAlbums` throws
on the failed fetch regardless of the per-album fetcher, surfacing a
page-level failure rather than an empty album list. -/
theorem manifest_absent_surfaces_error
    (fetchAlbum : String → FetchResult ClientAlbumData) :
    loadAlbums .notFound fetchAlbum = .error "HTTP error" := rfl

/-! ### Claim C6 -/

def exampleFetch : String → FetchResult ClientAlbumData := fun n =>
  match n with
  | "a" => .ok ⟨"Alpha", 10⟩
  | "b" => .invalidJson
  | "c" => .ok ⟨"Gamma", 20⟩
  | _ => .notFound

/-- C6: with a well-formed manifest, `loadAlbums` returns exactly the
albums whose metadata fetched and parsed successfully — failures are
dropped, never failing the listing — sorted by date with the most recent
first; in particular, with three albums of which one has invalid-JSON
metadata, exactly the two valid albums come back in newest-first order. -/
theorem listAlbums_partial_and_sorted :
    (∀ (names : List String) (f : String → FetchResult ClientAlbumData),
      ∃ l, loadAlbums (.ok names) f = .ok l ∧
        l.Perm (names.filterMap (loadOne f)) ∧
        l.Sorted (fun a b => b.date ≤ a.date)) ∧
    loadAlbums (.ok ["a", "b", "c"]) exampleFetch =
      .ok [⟨"Gamma", 20, "c"⟩, ⟨"Alpha", 10, "a"⟩] := by
  constructor
  · intro names f
    refine ⟨_, rfl, List.mergeSort_perm _ _, ?_⟩
    have hs := @List.sorted_mergeSort ClientAlbum
      (fun a b => decide (b.date ≤ a.date))
      (fun a b c hab hbc => by
        simp only [decide_eq_true_eq] at *
        exact Nat.le_trans hbc hab)
      (fun a b => by simp [Nat.le_total])
      (names.filterMap (loadOne f))
    exact hs.imp (fun hab => of_decide_eq_true hab)
  · simp [loadAlbums, loadOne, exampleFetch, List.mergeSort]

/-! ### Claim C8 -/

theorem replaceFirstAux_after_no_dot (b : List Char)
    (hb : ∀ c ∈ b, c ≠ '.') :
    replaceFirstAux ('.' :: 'w' :: 'e' :: 'b' :: 'p' :: []) []
        (b ++ ('.' :: 'w' :: 'e' :: 'b' :: 'p' :: [])) = some b := by
  induction b with
  | nil => rfl
  | cons c cs ih =>
    have hc : c ≠ '.' := hb c (List.mem_cons_self c cs)
    have ih' := ih (fun x hx => hb x (List.mem_cons_of_mem c hx))
    simp only [List.cons_append, replaceFirstAux, matchHead, if_neg hc,
      List.append_eq, ih']
    rfl

theorem jsReplaceFirst_strips_webp (b : String)
    (hb : ∀ c ∈ b.toList, c ≠ '.') :
    jsReplaceFirst (b ++ ".webp") ".webp" "" = b := by
  unfold jsReplaceFirst
  have hl : (b ++ ".webp").toList =
      b.toList ++ ('.' :: 'w' :: 'e' :: 'b' :: 'p' :: []) :=
    String.data_append b ".webp"
  rw [show (".webp" : String).toList = ('.' :: 'w' :: 'e' :: 'b' :: 'p' :: [])
        from rfl,
      show ("" : String).toList = ([] : List Char) from rfl, hl,
      replaceFirstAux_after_no_dot b.toList hb]
  cases b
  rfl

/-- C8: photo-record decoding accepts both shapes. The legacy bare-string
path derives thumbnail, lightbox and download URLs from the one bare
filename with no extension remapping; the structured path derives the
download URL as `full/{baseName}.{ext}` with the base name obtained from
the webp name by stripping its first `.webp` occurrence; and for the same
underlying file (a dot-free base with original extension webp) the two
shapes decode to identical records. -/
theorem photo_record_dual_decode :
    (∀ folder p, loadPhoto folder (.legacy p) =
      { thumbnail := "albums/" ++ folder ++ "/low/" ++ p,
        lightbox := "albums/" ++ folder ++ "/low/" ++ p,
        original := "albums/" ++ folder ++ "/full/" ++ p }) ∧
    (∀ folder w e, w ≠ "" →
      loadPhoto folder (.structured w e) =
        { thumbnail := "albums/" ++ folder ++ "/low/" ++ w,
          lightbox := "albums/" ++ folder ++ "/low/" ++ w,
          original := "albums/" ++ folder ++ "/full/" ++
            jsReplaceFirst w ".webp" "" ++ "." ++ e }) ∧
    (∀ folder b, (∀ c ∈ b.toList, c ≠ '.') →
      loadPhoto folder (.structured (b ++ ".webp") "webp") =
        loadPhoto folder (.legacy (b ++ ".webp"))) := by
  refine ⟨fun folder p => rfl, fun folder w e hw => ?_, fun folder b hb => ?_⟩
  · simp only [loadPhoto]
    rw [if_neg hw]
  · have hne : b ++ ".webp" ≠ "" := by
      intro hcontra
      have hd := congrArg String.data hcontra
      rw [String.data_append] at hd
      exact absurd (List.append_eq_nil.mp hd).2 (by decide)
    simp only [loadPhoto]
    rw [if_neg hne, jsReplaceFirst_strips_webp b hb]
    unfold legacyUrls
    have hassoc : ∀ s : String, s ++ b ++ "." ++ "webp" = s ++ (b ++ ".webp") := by
      intro s
      rw [String.append_assoc, String.append_assoc]
      rfl
    rw [PhotoUrls.mk.injEq]
    exact ⟨rfl, rfl, hassoc _⟩

/-- Witness for `photo_record_dual_decode` at concrete file names. -/
theorem photo_record_dual_decode_witness :
    loadPhoto "spring_formal_2024" (.legacy "old_photo.webp") =
      { thumbnail := "albums/spring_formal_2024/low/old_photo.webp",
        lightbox := "albums/spring_formal_2024/low/old_photo.webp",
        original := "albums/spring_formal_2024/full/old_photo.webp" } ∧
    loadPhoto "spring_formal_2024"
        (.structured "spring_formal_2024_1.webp" "jpg") =
      { thumbnail := "albums/spring_formal_2024/low/spring_formal_2024_1.webp",
        lightbox := "albums/spring_formal_2024/low/spring_formal_2024_1.webp",
        original :=
          "albums/spring_formal_2024/full/spring_formal_2024_1.jpg" } ∧
    loadPhoto "spring_formal_2024"
        (.structured ("spring_formal_2024_1" ++ ".webp") "webp") =
      loadPhoto "spring_formal_2024"
        (.legacy ("spring_formal_2024_1" ++ ".webp")) := by
  obtain ⟨h1, h2, h3⟩ := photo_record_dual_decode
  refine ⟨h1 "spring_formal_2024" "old_photo.webp", ?_,
    h3 "spring_formal_2024" "spring_formal_2024_1" (by decide)⟩
  have h := h2 "spring_formal_2024" "spring_formal_2024_1.webp" "jpg"
    (by decide)
  rw [h]
  decide

end PikappPhotos
